import Mathlib

/-!
# Blog Post Optimizer — shallow embedding and verification

A shallow embedding of the analytic core of `blog_post_optimizer.py`
(class `BlogPostOptimizer`) together with proofs of the specification
claims about it.

Modelling conventions:
* Python strings are modelled as `List Char`; `len` is `List.length`.
* Python `str.split()` (no argument) splits on maximal runs of ASCII
  whitespace and never produces empty tokens; `str.split(sep)` splits on
  every non-overlapping occurrence of `sep` and keeps empty pieces.
* Regular-expression calls are translated point-wise into scanners over
  the character list that mirror `re.findall` / `re.search` semantics
  (left-to-right, non-overlapping, `re.MULTILINE` anchors at the
  beginning of the text and after each newline, `\b` word boundaries
  between word and non-word characters).
* Python floats are idealised as exact rationals `ℚ`; `round(x, n)` is
  round-half-to-even at `n` decimal digits, which is Python's rounding
  rule (`pyRound0`, `pyRound1`, `pyRound2` below).
* The optional `nltk` tokenizer is absent in the analysed configuration,
  so every `sent_tokenize(c) if nltk else c.split('. ')` takes the
  fallback branch, which the design document declares canonical.
* The `power_words.json` data file is not shipped next to the script, so
  `_load_power_words` takes its `FileNotFoundError` fallback: the
  hardcoded three-category database embedded below.
-/

/-- ASCII whitespace recognised by Python's `str.split()` and `\s`
(space, tab, newline, carriage return, vertical tab, form feed). -/
def pyIsSpace (c : Char) : Bool :=
  c = ' ' || c = '\t' || c = '\n' || c = '\r' || c = '\x0b' || c = '\x0c'

/-- Regex word character `\w` (ASCII letters, digits, underscore). -/
def isWordChar (c : Char) : Bool :=
  c.isAlpha || c.isDigit || c = '_'

/-- The backquote character, one of the markdown control characters the
optimizer strips. -/
def backquote : Char := Char.ofNat 96

/-- Python `str.split()` with no separator: maximal whitespace runs
delimit tokens, and no empty token is produced. -/
def splitWS : List Char → List (List Char)
  | [] => []
  | c :: rest =>
    if pyIsSpace c then splitWS rest
    else
      match splitWS rest with
      | [] => [[c]]
      | t :: ts =>
        match rest with
        | [] => [[c]]
        | d :: _ => if pyIsSpace d then [c] :: t :: ts else (c :: t) :: ts

/-- Python `str.split(sep)` for a two-character separator `[a, b]`:
split on each non-overlapping occurrence, keeping empty pieces. -/
def split2 (a b : Char) : List Char → List (List Char)
  | c :: d :: rest =>
    if c = a ∧ d = b then [] :: split2 a b rest
    else
      match split2 a b (d :: rest) with
      | s :: ss => (c :: s) :: ss
      | [] => [[c]]
  | [c] => [[c]]
  | [] => [[]]

/-- Python `str.strip()`: remove leading and trailing whitespace. -/
def stripWS (l : List Char) : List Char :=
  ((l.dropWhile pyIsSpace).reverse.dropWhile pyIsSpace).reverse

/-- Python `' '.join(tokens)`. -/
def joinSpace : List (List Char) → List Char
  | [] => []
  | [t] => t
  | t :: ts => t ++ ' ' :: joinSpace ts

/-- Python `'-'.join(tokens)`. -/
def joinHyphen : List (List Char) → List Char
  | [] => []
  | [t] => t
  | t :: ts => t ++ '-' :: joinHyphen ts

/-- Length of the maximal run of whitespace (`\s*` / `\s+`) at the front
of the list. -/
def wsRun : List Char → Nat
  | [] => 0
  | c :: rest => if pyIsSpace c then wsRun rest + 1 else 0

/-- Length of the maximal run of decimal digits (`\d+`) at the front. -/
def digitRun : List Char → Nat
  | [] => 0
  | c :: rest => if c.isDigit then digitRun rest + 1 else 0

/-- Length of the maximal run of word characters (`\w+`) at the front. -/
def wordRun : List Char → Nat
  | [] => 0
  | c :: rest => if isWordChar c then wordRun rest + 1 else 0

/-- Whether the option holds a word character (`none` stands for the
edge of the text, which is a non-word position). -/
def isWordO : Option Char → Bool
  | some c => isWordChar c
  | none => false

/-- Regex `\b` at position `i` of `t`: exactly one of the neighbouring
positions carries a word character. -/
def boundaryAt (t : List Char) (i : Nat) : Bool :=
  (if i = 0 then false else isWordO (t.get? (i - 1))) != isWordO (t.get? i)

/-- `re.search(r'\b' + re.escape(w) + r'\b', t)` viewed as a Boolean:
some position of `t` starts an occurrence of the literal `w` flanked by
word boundaries. -/
def searchWholeWord (w : List Char) (t : List Char) : Bool :=
  (List.range (t.length + 1)).any fun i =>
    w.isPrefixOf (t.drop i) && boundaryAt t i && boundaryAt t (i + w.length)

/-- One step bound for `searchWholeWord`-style scanning is not needed;
`len(re.findall(r'\b' + re.escape(w) + r'\b', t))` counts
non-overlapping whole-word occurrences left to right. -/
def countWholeWordGo (w t : List Char) : Nat → Nat → Nat
  | 0, _ => 0
  | fuel + 1, i =>
    if i + w.length > t.length then 0
    else if w.isPrefixOf (t.drop i) && boundaryAt t i && boundaryAt t (i + w.length) then
      1 + countWholeWordGo w t fuel (i + max w.length 1)
    else
      countWholeWordGo w t fuel (i + 1)

/-- `len(re.findall(r'\b' + re.escape(w) + r'\b', t))`. -/
def countWholeWord (w t : List Char) : Nat :=
  countWholeWordGo w t (t.length + 1) 0

/-- The fallback power-words database hardcoded in `_load_power_words`
(the `power_words.json` data file is absent from the repository). -/
def power_words_db : List (List Char × List (List Char)) :=
  [ ("urgency".toList, ["now".toList, "today".toList, "fast".toList, "quick".toList]),
    ("value".toList, ["best".toList, "proven".toList, "ultimate".toList, "essential".toList]),
    ("curiosity".toList, ["secret".toList, "discover".toList, "revealed".toList, "truth".toList]) ]

/-- Result record of `analyze_headline`. -/
structure HeadlineResult where
  score : ℤ
  character_count : ℕ
  power_words : List (List Char)
  emotional_impact : ℤ
  suggestions : List (List Char)
  deriving Repr, DecidableEq

/-- `BlogPostOptimizer.analyze_headline`.  Python's `list(set(..))`
returns the found words deduplicated in an unspecified order; it is
modelled as first-occurrence deduplication (`List.eraseDups`). -/
def analyze_headline (headline : List Char) : HeadlineResult :=
  let char_count := headline.length
  let length_score : ℤ :=
    if 50 ≤ char_count ∧ char_count ≤ 60 then 30
    else if 40 ≤ char_count ∧ char_count ≤ 70 then 20
    else 10
  let headline_lower := headline.map Char.toLower
  let power_words_found :=
    power_words_db.flatMap fun cw =>
      cw.2.filter fun w => searchWholeWord w headline_lower
  let power_word_score : ℤ := min ((power_words_found.length : ℤ) * 15) 40
  let has_digit := headline.any Char.isDigit
  let number_score : ℤ := if has_digit then 15 else 0
  let question_score : ℤ := if headline.contains '?' then 10 else 0
  let score := length_score + power_word_score + number_score + question_score
  let emotional_impact : ℤ := min ((power_words_found.length : ℤ) * 20) 100
  let suggestions :=
    (if char_count < 50 then [headline ++ " - Complete Guide".toList] else []) ++
    (if power_words_found = [] then ["The Ultimate Guide to ".toList ++ headline] else []) ++
    (if ¬ has_digit then ["10 Essential Tips: ".toList ++ headline] else [])
  { score := min score 100
    character_count := char_count
    power_words := power_words_found.eraseDups
    emotional_impact := emotional_impact
    suggestions := suggestions.take 3 }

/-!
## A generic `re.findall` scanner

`findallGo m fuel prev l` walks the text left to right.  `prev` is the
character immediately before the current position (`none` at the start
of the text), which is what the anchors `^` (in `re.MULTILINE` mode) and
`\b` inspect.  A matcher `m` reports the length of the (deterministic)
match starting at the current position, or `none`.  On a match the scan
resumes after the matched segment, exactly like `re.findall`'s
non-overlapping semantics; otherwise it advances one character.  `fuel`
only serves termination; `l.length` steps always suffice. -/

/-- Core scanning loop for `re.findall`-style counting. -/
def findallGo (m : Option Char → List Char → Option Nat) :
    Nat → Option Char → List Char → Nat
  | 0, _, _ => 0
  | fuel + 1, prev, l =>
    match l with
    | [] => 0
    | c :: rest =>
      match m prev (c :: rest) with
      | some k =>
        if k = 0 then findallGo m fuel (some c) rest
        else 1 + findallGo m fuel (l.get? (k - 1)) (l.drop k)
      | none => findallGo m fuel (some c) rest

/-- `len(re.findall(pattern, l))` for the matcher `m` embedding
`pattern`. -/
def findallCount (m : Option Char → List Char → Option Nat) (l : List Char) : Nat :=
  findallGo m l.length none l

/-- `^` in `re.MULTILINE` mode: the position after `prev` starts a
line. -/
def atLineStart (prev : Option Char) : Bool :=
  match prev with
  | none => true
  | some c => c = '\n'

/-- Matcher for the heading regexes `^#\s+`, `^##\s+`, `^###\s+`
(with `k` hash signs): at a line start, `k` literal `#` characters
followed by a maximal nonempty whitespace run. -/
def hashMatcher (k : Nat) (prev : Option Char) (l : List Char) : Option Nat :=
  if atLineStart prev ∧ (List.replicate k '#').isPrefixOf l then
    let r := wsRun (l.drop k)
    if 1 ≤ r then some (k + r) else none
  else none

/-- Matcher for the bullet-list regex `^\s*[-*+]\s+`. -/
def bulletMatcher (prev : Option Char) (l : List Char) : Option Nat :=
  if atLineStart prev then
    let a := wsRun l
    match (l.drop a).head? with
    | some c =>
      if c = '-' ∨ c = '*' ∨ c = '+' then
        let b := wsRun (l.drop (a + 1))
        if 1 ≤ b then some (a + 1 + b) else none
      else none
    | none => none
  else none

/-- Matcher for the ordered-list regex `^\s*\d+\.\s+`. -/
def orderedMatcher (prev : Option Char) (l : List Char) : Option Nat :=
  if atLineStart prev then
    let a := wsRun l
    let d := digitRun (l.drop a)
    if 1 ≤ d ∧ (l.drop (a + d)).head? = some '.' then
      let b := wsRun (l.drop (a + d + 1))
      if 1 ≤ b then some (a + d + 1 + b) else none
    else none
  else none

/-- Round-half-to-even to an integer, Python's `round(x)` rule. -/
def pyRoundInt (q : ℚ) : ℤ :=
  let f := ⌊q⌋
  let r := q - (f : ℚ)
  if r < 1 / 2 then f
  else if 1 / 2 < r then f + 1
  else if Even f then f else f + 1

/-- Python `round(x, 0)` (the value is integral but stays a float). -/
def pyRound0 (q : ℚ) : ℚ := (pyRoundInt q : ℚ)

/-- Python `round(x, 1)`. -/
def pyRound1 (q : ℚ) : ℚ := (pyRoundInt (q * 10) : ℚ) / 10

/-- Python `round(x, 2)`. -/
def pyRound2 (q : ℚ) : ℚ := (pyRoundInt (q * 100) : ℚ) / 100

/-- Result record of `analyze_seo`. -/
structure SeoResult where
  score : ℤ
  keyword_density : List (List Char × ℚ)
  keyword_prominence : Bool
  meta_description : List Char
  title_tag : List Char
  url_slug : List Char
  deriving Repr, DecidableEq

/-- `BlogPostOptimizer.analyze_seo`.  The keyword-density dict is
modelled as an association list in keyword order. -/
def analyze_seo (content : List Char) (keywords : List (List Char)) : SeoResult :=
  let content_lower := content.map Char.toLower
  let word_count := (splitWS content).length
  let densities :=
    keywords.map fun keyword =>
      let keyword_lower := keyword.map Char.toLower
      let count := countWholeWord keyword_lower content_lower
      let density : ℚ :=
        if 0 < word_count then (count : ℚ) / (word_count : ℚ) * 100 else 0
      (keyword, density)
  let density_score : ℤ :=
    (densities.map fun kd =>
      if 1 ≤ kd.2 ∧ kd.2 ≤ 2 then (30 : ℤ)
      else if 1 / 2 ≤ kd.2 ∧ kd.2 ≤ 3 then 20
      else 10).sum
  let first_100_words := joinSpace ((splitWS content_lower).take 100)
  let keyword_prominence :=
    keywords.any fun kw => searchWholeWord (kw.map Char.toLower) first_100_words
  let prominence_score : ℤ := if keyword_prominence then 20 else 0
  let sentences := split2 '.' ' ' content
  let meta_description0 := sentences.head?.getD []
  let meta_description :=
    if 160 < meta_description0.length then meta_description0.take 157 ++ "...".toList
    else meta_description0
  let primary_keyword := keywords.head?.getD []
  let title_tag := (primary_keyword ++ " - Complete Guide".toList).take 60
  let slug_words := splitWS (primary_keyword.map Char.toLower)
  let url_slug := joinHyphen (slug_words.take 5)
  { score := min (density_score + prominence_score) 100
    keyword_density := densities.map fun kd => (kd.1, pyRound2 kd.2)
    keyword_prominence := keyword_prominence
    meta_description := meta_description
    title_tag := title_tag
    url_slug := url_slug }

/-- The warnings `analyze_structure` can emit, modelled as constructors
carrying the data that the Python code splices into the warning
strings. -/
inductive StructureWarning where
  | missingH1
  | multipleH1 (n : ℕ)
  | paragraphsTooLong (avg : ℚ)
  deriving Repr, DecidableEq

/-- Result record of `analyze_structure`. -/
structure StructureResult where
  score : ℤ
  h1_count : ℕ
  h2_count : ℕ
  h3_count : ℕ
  avg_paragraph_length : ℚ
  list_count : ℕ
  warnings : List StructureWarning
  deriving Repr, DecidableEq

/-- `BlogPostOptimizer.analyze_structure`. -/
def analyze_structure (content : List Char) : StructureResult :=
  let h1_count := findallCount (hashMatcher 1) content
  let h2_count := findallCount (hashMatcher 2) content
  let h3_count := findallCount (hashMatcher 3) content
  let h1_score : ℤ := if h1_count = 1 then 10 else if h1_count = 0 then -10 else -5
  let h1_warnings : List StructureWarning :=
    if h1_count = 1 then []
    else if h1_count = 0 then [.missingH1]
    else [.multipleH1 h1_count]
  let paragraphs := ((split2 '\n' '\n' content).map stripWS).filter (· ≠ [])
  let sentences := split2 '.' ' ' content
  let avg_paragraph_length : ℚ :=
    if paragraphs ≠ [] then (sentences.length : ℚ) / (paragraphs.length : ℚ) else 0
  let para_score : ℤ := if 3 ≤ avg_paragraph_length ∧ avg_paragraph_length ≤ 5 then 10 else 0
  let para_warnings : List StructureWarning :=
    if ¬ (3 ≤ avg_paragraph_length ∧ avg_paragraph_length ≤ 5) ∧ 8 < avg_paragraph_length then
      [.paragraphsTooLong avg_paragraph_length]
    else []
  let list_count := findallCount bulletMatcher content + findallCount orderedMatcher content
  let list_score : ℤ := if 0 < list_count then 10 else 0
  let score := 70 + h1_score + para_score + list_score
  { score := min (max score 0) 100
    h1_count := h1_count
    h2_count := h2_count
    h3_count := h3_count
    avg_paragraph_length := pyRound1 avg_paragraph_length
    list_count := list_count
    warnings := h1_warnings ++ para_warnings }

/-- Vowels used by the syllable estimator. -/
def isVowel (c : Char) : Bool :=
  c = 'a' || c = 'e' || c = 'i' || c = 'o' || c = 'u' || c = 'y'

/-- Count of vowel groups: a vowel preceded by a non-vowel (or the word
start) opens a new group. -/
def vowelGroups : Bool → List Char → ℕ
  | _, [] => 0
  | prevV, c :: rest =>
    (if isVowel c && !prevV then 1 else 0) + vowelGroups (isVowel c) rest

/-- `BlogPostOptimizer._count_syllables`. -/
def count_syllables (word : List Char) : ℤ :=
  let w := word.map Char.toLower
  let count : ℤ := vowelGroups false w
  let count2 := if w.getLast? = some 'e' then count - 1 else count
  max 1 count2

/-- `re.sub(r'\n+', ' ', ...)`: each maximal newline run becomes one
space.  The flag records whether the previous character was a
newline. -/
def collapseNLGo : Bool → List Char → List Char
  | _, [] => []
  | prevNL, c :: rest =>
    if c = '\n' then
      if prevNL then collapseNLGo true rest else ' ' :: collapseNLGo true rest
    else c :: collapseNLGo false rest

/-- `re.sub(r'\n+', ' ', l)`. -/
def collapseNL (l : List Char) : List Char := collapseNLGo false l

/-- The auxiliary verbs of the passive-voice regex, in alternation
order. -/
def passiveAux : List (List Char) :=
  ["was".toList, "were".toList, "been".toList, "being".toList]

/-- Matcher for `\b(was|were|been|being)\s+\w+ed\b` with
`re.IGNORECASE`: after a word boundary, one of the auxiliary verbs, a
nonempty whitespace run, and a maximal word-character run of length at
least 3 ending in `ed` (regex backtracking forces the `ed` to close the
word). -/
def passiveMatcher (prev : Option Char) (l : List Char) : Option Nat :=
  if isWordO prev then none
  else
    let low := l.map Char.toLower
    match passiveAux.find? (fun v => v.isPrefixOf low) with
    | none => none
    | some v =>
      let l2 := low.drop v.length
      let s := wsRun l2
      if 1 ≤ s then
        let l3 := l2.drop s
        let r := wordRun l3
        if 3 ≤ r ∧ (l3.take r).drop (r - 2) = ['e', 'd'] then some (v.length + s + r)
        else none
      else none

/-- Result record of `analyze_readability` (all fields carry the
rounded values the Python dict holds). -/
structure ReadabilityResult where
  flesch_kincaid_grade : ℚ
  reading_ease : ℚ
  avg_sentence_length : ℚ
  passive_voice_pct : ℚ
  complexity_score : ℚ
  deriving Repr, DecidableEq

/-- `BlogPostOptimizer.analyze_readability`. -/
def analyze_readability (content : List Char) : ReadabilityResult :=
  let clean1 := content.filter fun c => ¬ (c = '#' ∨ c = '*' ∨ c = backquote ∨ c = '[' ∨ c = ']')
  let clean_text := collapseNL clean1
  let sentences := split2 '.' ' ' clean_text
  let words := splitWS clean_text
  let sentence_count := sentences.length
  let word_count := words.length
  let avg_sentence_length : ℚ :=
    if 0 < sentence_count then (word_count : ℚ) / (sentence_count : ℚ) else 0
  let syllable_count : ℤ := (words.map count_syllables).sum
  let reading_ease : ℚ :=
    if 0 < sentence_count ∧ 0 < word_count then
      max 0 (min 100 (206.835 - 1.015 * ((word_count : ℚ) / (sentence_count : ℚ))
        - 84.6 * ((syllable_count : ℚ) / (word_count : ℚ))))
    else 0
  let grade_level : ℚ :=
    if 0 < sentence_count ∧ 0 < word_count then
      max 0 (0.39 * ((word_count : ℚ) / (sentence_count : ℚ))
        + 11.8 * ((syllable_count : ℚ) / (word_count : ℚ)) - 15.59)
    else 0
  let passive_voice_count := findallCount passiveMatcher clean_text
  let passive_voice_pct : ℚ :=
    if 0 < sentence_count then (passive_voice_count : ℚ) / (sentence_count : ℚ) * 100 else 0
  let complexity_score : ℚ := 100 - reading_ease
  { flesch_kincaid_grade := pyRound1 grade_level
    reading_ease := pyRound1 reading_ease
    avg_sentence_length := pyRound1 avg_sentence_length
    passive_voice_pct := pyRound1 passive_voice_pct
    complexity_score := pyRound0 complexity_score }

/-- Result record of `calculate_content_stats`. -/
structure ContentStats where
  word_count : ℕ
  reading_time_minutes : ℕ
  character_count : ℕ
  sentence_count : ℕ
  paragraph_count : ℕ
  deriving Repr, DecidableEq

/-- `BlogPostOptimizer.calculate_content_stats`. -/
def calculate_content_stats (content : List Char) : ContentStats :=
  let clean_text := content.filter fun c => ¬ (c = '#' ∨ c = '*' ∨ c = backquote)
  let words := splitWS clean_text
  let sentences := split2 '.' ' ' clean_text
  let paragraphs := ((split2 '\n' '\n' content).map stripWS).filter (· ≠ [])
  let word_count := words.length
  { word_count := word_count
    reading_time_minutes := max 1 (word_count / 265)
    character_count := content.length
    sentence_count := sentences.length
    paragraph_count := paragraphs.length }

/-- Python `', '.join(tokens)`. -/
def joinCommaSpace : List (List Char) → List Char
  | [] => []
  | [t] => t
  | t :: ts => t ++ ',' :: ' ' :: joinCommaSpace ts

/-- `BlogPostOptimizer.generate_meta_tags`: a mapping from tag-group
name to a mapping from tag name to value, modelled as nested
association lists in the source's literal order. -/
def generate_meta_tags (title description : List Char) (keywords : List (List Char)) :
    List (List Char × List (List Char × List Char)) :=
  [ ("open_graph".toList,
      [("og:title".toList, title),
       ("og:description".toList, description),
       ("og:type".toList, "article".toList),
       ("og:locale".toList, "en_US".toList)]),
    ("twitter_card".toList,
      [("twitter:card".toList, "summary_large_image".toList),
       ("twitter:title".toList, title),
       ("twitter:description".toList, description)]),
    ("schema_org".toList,
      [("@context".toList, "https://schema.org".toList),
       ("@type".toList, "Article".toList),
       ("headline".toList, title),
       ("description".toList, description),
       ("keywords".toList, if keywords ≠ [] then joinCommaSpace keywords else [])]) ]

/-- Recommendation priorities. -/
inductive Priority where
  | high
  | medium
  | low
  deriving Repr, DecidableEq

/-- One recommendation entry of `analyze_full`. -/
structure Recommendation where
  priority : Priority
  issue : List Char
  fix : List Char
  deriving Repr, DecidableEq

/-- Result record of `analyze_full` (the Python `structure` key is
spelled `structure_result` because `structure` is a Lean keyword). -/
structure AnalysisResults where
  overall_score : ℚ
  headline : HeadlineResult
  seo : SeoResult
  structure_result : StructureResult
  readability : ReadabilityResult
  stats : ContentStats
  recommendations : List Recommendation
  deriving Repr, DecidableEq

/-- `BlogPostOptimizer.analyze_full`. -/
def analyze_full (content headline : List Char) (keywords : List (List Char)) :
    AnalysisResults :=
  let headline_analysis := analyze_headline headline
  let seo_analysis := analyze_seo content keywords
  let structure_analysis := analyze_structure content
  let readability_analysis := analyze_readability content
  let stats := calculate_content_stats content
  let overall_score : ℚ :=
    (headline_analysis.score : ℚ) * 0.2 +
    (seo_analysis.score : ℚ) * 0.3 +
    (structure_analysis.score : ℚ) * 0.2 +
    (100 - readability_analysis.complexity_score) * 0.3
  let recommendations :=
    (if headline_analysis.score < 70 then
      [{ priority := Priority.high,
         issue := "Headline needs improvement".toList,
         fix := match headline_analysis.suggestions.head? with
           | some s => "Try: ".toList ++ s
           | none => "Add power words and numbers".toList }]
     else []) ++
    (if ¬ seo_analysis.keyword_prominence then
      [{ priority := Priority.high,
         issue := "Keywords not in first 100 words".toList,
         fix := "Include primary keyword in introduction".toList }]
     else []) ++
    (if structure_analysis.h1_count ≠ 1 then
      [{ priority := Priority.medium,
         issue := "H1 count is ".toList ++ (toString structure_analysis.h1_count).toList,
         fix := "Use exactly one H1 heading".toList }]
     else []) ++
    (if 12 < readability_analysis.flesch_kincaid_grade then
      [{ priority := Priority.medium,
         issue := "Content is too complex".toList,
         fix := "Simplify sentences and use shorter words".toList }]
     else []) ++
    (if stats.word_count < 300 then
      [{ priority := Priority.low,
         issue := "Content is too short".toList,
         fix := "Aim for at least 1000 words for SEO".toList }]
     else [])
  { overall_score := pyRound0 overall_score
    headline := headline_analysis
    seo := seo_analysis
    structure_result := structure_analysis
    readability := readability_analysis
    stats := stats
    recommendations := recommendations }

/-!
## Helper lemmas
-/

theorem le_pyRoundInt {q : ℚ} {n : ℤ} (h : (n : ℚ) ≤ q) : n ≤ pyRoundInt q := by
  have hf : n ≤ ⌊q⌋ := Int.le_floor.mpr h
  unfold pyRoundInt
  dsimp only
  split_ifs <;> omega

theorem pyRoundInt_le {q : ℚ} {n : ℤ} (h : q ≤ (n : ℚ)) : pyRoundInt q ≤ n := by
  have hf : ⌊q⌋ ≤ n := by
    have := Int.floor_le_floor h
    simpa using this
  have hfq : (⌊q⌋ : ℚ) ≤ q := Int.floor_le q
  unfold pyRoundInt
  dsimp only
  split_ifs with h1 h2 h3
  · exact hf
  · -- the fractional part exceeds 1/2, so the floor is strictly below n
    rcases lt_or_eq_of_le hf with hlt | heq
    · omega
    · exfalso
      have : q - (⌊q⌋ : ℚ) ≤ 0 := by
        rw [heq]
        linarith
      linarith
  · exact hf
  · rcases lt_or_eq_of_le hf with hlt | heq
    · omega
    · exfalso
      have h2' : q - (⌊q⌋ : ℚ) = 1 / 2 := le_antisymm (not_lt.mp h2) (not_lt.mp h1)
      have : q - (⌊q⌋ : ℚ) ≤ 0 := by
        rw [heq]
        linarith
      linarith

theorem abs_pyRoundInt_sub_le (q : ℚ) : |(pyRoundInt q : ℚ) - q| ≤ 1 / 2 := by
  have h0 : (⌊q⌋ : ℚ) ≤ q := Int.floor_le q
  have h1 : q < (⌊q⌋ : ℚ) + 1 := Int.lt_floor_add_one q
  unfold pyRoundInt
  dsimp only
  split_ifs with ha hb hc <;> rw [abs_le] <;> push_cast <;> constructor <;> linarith

theorem pyRound0_nonneg {q : ℚ} (h : 0 ≤ q) : 0 ≤ pyRound0 q := by
  have : (0 : ℤ) ≤ pyRoundInt q := le_pyRoundInt (by exact_mod_cast h)
  unfold pyRound0
  exact_mod_cast this

theorem pyRound0_le {q : ℚ} {n : ℤ} (h : q ≤ (n : ℚ)) : pyRound0 q ≤ (n : ℚ) := by
  have : pyRoundInt q ≤ n := pyRoundInt_le h
  unfold pyRound0
  exact_mod_cast this

theorem analyze_headline_score_bounds (headline : List Char) :
    10 ≤ (analyze_headline headline).score ∧ (analyze_headline headline).score ≤ 100 := by
  unfold analyze_headline
  dsimp only
  refine ⟨le_min ?_ (by norm_num), min_le_right _ _⟩
  have hpw : (0 : ℤ) ≤ min ((((power_words_db.flatMap fun cw =>
      cw.2.filter fun w => searchWholeWord w (headline.map Char.toLower)).length : ℤ)) * 15) 40 :=
    le_min (by positivity) (by norm_num)
  split_ifs <;> omega

theorem analyze_seo_score_bounds (content : List Char) (keywords : List (List Char)) :
    0 ≤ (analyze_seo content keywords).score ∧ (analyze_seo content keywords).score ≤ 100 := by
  unfold analyze_seo
  dsimp only
  refine ⟨le_min ?_ (by norm_num), min_le_right _ _⟩
  have key : ∀ ds : List (List Char × ℚ), (0 : ℤ) ≤ (List.map (fun kd =>
      if 1 ≤ kd.2 ∧ kd.2 ≤ 2 then (30 : ℤ)
      else if 1 / 2 ≤ kd.2 ∧ kd.2 ≤ 3 then 20
      else 10) ds).sum := by
    intro ds
    apply List.sum_nonneg
    intro x hx
    simp only [List.mem_map] at hx
    obtain ⟨kd, -, rfl⟩ := hx
    split_ifs <;> norm_num
  refine add_nonneg (key _) ?_
  split_ifs <;> norm_num

theorem analyze_structure_score_bounds (content : List Char) :
    0 ≤ (analyze_structure content).score ∧ (analyze_structure content).score ≤ 100 := by
  unfold analyze_structure
  dsimp only
  exact ⟨le_min (le_max_right _ _) (by norm_num), min_le_right _ _⟩

theorem pyRound0_clamp100_bounds (e : ℚ) (c : Prop) [Decidable c] :
    0 ≤ pyRound0 (100 - (if c then max 0 (min 100 e) else 0)) ∧
      pyRound0 (100 - (if c then max 0 (min 100 e) else 0)) ≤ 100 := by
  have h1 : 0 ≤ (if c then max 0 (min 100 e) else 0) := by
    split_ifs
    · exact le_max_left _ _
    · exact le_refl 0
  have h2 : (if c then max 0 (min 100 e) else 0) ≤ 100 := by
    split_ifs
    · exact max_le (by norm_num) (min_le_left _ _)
    · norm_num
  constructor
  · exact pyRound0_nonneg (by linarith)
  · have h := @pyRound0_le (100 - (if c then max 0 (min 100 e) else 0)) (100 : ℤ)
      (by push_cast; linarith)
    exact_mod_cast h

theorem analyze_readability_complexity_bounds (content : List Char) :
    0 ≤ (analyze_readability content).complexity_score ∧
      (analyze_readability content).complexity_score ≤ 100 := by
  unfold analyze_readability
  dsimp only
  exact pyRound0_clamp100_bounds _ _

/-!
## Claims
-/

/-- C5: For every input content string, including malformed markdown
such as content containing 5 H1 lines, the score returned by
analyzeStructure lies in [0,100] (the final score is clamped to that
interval). -/
theorem claim_C5_structure_score_in_range (content : List Char) :
    0 ≤ (analyze_structure content).score ∧ (analyze_structure content).score ≤ 100 :=
  analyze_structure_score_bounds content

/-- C6: analyzeHeadline("") returns characterCount = 0, an empty set of
matched power words, and score exactly 10 (the lowest length tier with
no other bonuses); the empty headline is not an error. -/
theorem claim_C6_empty_headline :
    (analyze_headline "".toList).character_count = 0 ∧
      (analyze_headline "".toList).power_words = [] ∧
      (analyze_headline "".toList).score = 10 := by
  decide

/-- C9: For every headline string, the score returned by
analyzeHeadline is at least 10: the length-tier rule always contributes
at least 10 points and no rule ever subtracts, so the headline score
lies in [10,100]. -/
theorem claim_C9_headline_score_lower_bound (headline : List Char) :
    10 ≤ (analyze_headline headline).score ∧ (analyze_headline headline).score ≤ 100 :=
  analyze_headline_score_bounds headline

/-- C10: For every content string, analyzeSeo(content, []) with an
empty keyword list returns score exactly 0, keywordProminence false, an
empty keywordDensity mapping, and urlSlug equal to the empty string. -/
theorem claim_C10_seo_empty_keywords (content : List Char) :
    (analyze_seo content []).score = 0 ∧
      (analyze_seo content []).keyword_prominence = false ∧
      (analyze_seo content []).keyword_density = [] ∧
      (analyze_seo content []).url_slug = [] := by
  refine ⟨rfl, rfl, rfl, rfl⟩

/-- C7: For every content string, computeStats returns wordCount equal
to the number of whitespace-delimited tokens of content after removing
every '#', '*', and '`' character (brackets are not removed),
characterCount equal to the raw (unstripped) length of content, and
readingTimeMinutes equal to max(1, wordCount ÷ 265) using integer
division. -/
theorem claim_C7_content_stats (content : List Char) :
    (calculate_content_stats content).word_count =
      (splitWS (content.filter fun c => c ≠ '#' ∧ c ≠ '*' ∧ c ≠ backquote)).length ∧
      (calculate_content_stats content).character_count = content.length ∧
      (calculate_content_stats content).reading_time_minutes =
        max 1 ((calculate_content_stats content).word_count / 265) := by
  refine ⟨?_, rfl, rfl⟩
  unfold calculate_content_stats
  dsimp only
  have hpq : ∀ c : Char, (decide ¬ (c = '#' ∨ c = '*' ∨ c = backquote)) =
      (decide (c ≠ '#' ∧ c ≠ '*' ∧ c ≠ backquote)) := by
    intro c
    simp [not_or]
  simp only [hpq]

/-- C8: For every title, description, and keyword list,
generateMetaTags returns a mapping with exactly three top-level groups
— open_graph, twitter_card, and schema_org — in which og:type is always
the constant "article" and twitter:card is always the constant
"summary_large_image"; the operation is pure string composition
independent of any scoring. -/
theorem claim_C8_meta_tags (title description : List Char) (keywords : List (List Char)) :
    (generate_meta_tags title description keywords).map Prod.fst =
        ["open_graph".toList, "twitter_card".toList, "schema_org".toList] ∧
      ((generate_meta_tags title description keywords).lookup "open_graph".toList).map
          (fun g => g.lookup "og:type".toList) = some (some "article".toList) ∧
      ((generate_meta_tags title description keywords).lookup "twitter_card".toList).map
          (fun g => g.lookup "twitter:card".toList) = some (some "summary_large_image".toList) := by
  refine ⟨rfl, rfl, rfl⟩

theorem splitWS_cons_ne_nil (c : Char) (rest : List Char) (hc : pyIsSpace c = false) :
    splitWS (c :: rest) ≠ [] := by
  rw [splitWS]
  simp only [hc, Bool.false_eq_true, if_false]
  rcases hsr : splitWS rest with _ | ⟨t, ts⟩
  · simp [hsr]
  · rcases rest with _ | ⟨d, r⟩
    · simp [splitWS] at hsr
    · simp only [hsr]
      split_ifs <;> simp

theorem splitWS_eq_nil_iff (l : List Char) :
    splitWS l = [] ↔ ∀ c ∈ l, pyIsSpace c = true := by
  induction l with
  | nil => simp [splitWS]
  | cons c rest ih =>
    by_cases hc : pyIsSpace c
    · simpa [splitWS, hc] using ih
    · have hc' : pyIsSpace c = false := by
        simpa using hc
      constructor
      · intro hnil
        exact absurd hnil (splitWS_cons_ne_nil c rest hc')
      · intro hall
        exact absurd (hall c (List.mem_cons_self c rest)) hc

theorem collapseNLGo_space {l : List Char} (h : ∀ c ∈ l, pyIsSpace c = true) (flag : Bool) :
    ∀ c ∈ collapseNLGo flag l, pyIsSpace c = true := by
  induction l generalizing flag with
  | nil => simp [collapseNLGo]
  | cons a rest ih =>
    have hrest : ∀ x ∈ rest, pyIsSpace x = true := fun x hx => h x (List.mem_cons_of_mem a hx)
    have ha : pyIsSpace a = true := h a (List.mem_cons_self a rest)
    intro d hd
    rw [collapseNLGo] at hd
    by_cases han : a = '\n'
    · rw [if_pos han] at hd
      by_cases hflag : flag = true
      · rw [if_pos hflag] at hd
        exact ih hrest true d hd
      · rw [if_neg hflag] at hd
        rcases List.mem_cons.mp hd with rfl | hd2
        · decide
        · exact ih hrest true d hd2
    · rw [if_neg han] at hd
      rcases List.mem_cons.mp hd with rfl | hd2
      · exact ha
      · exact ih hrest false d hd2

theorem pyRoundInt_zero : pyRoundInt 0 = 0 := by
  unfold pyRoundInt
  norm_num

theorem pyRound1_zero : pyRound1 0 = 0 := by
  unfold pyRound1
  norm_num [pyRoundInt_zero]

theorem pyRound2_zero : pyRound2 0 = 0 := by
  unfold pyRound2
  norm_num [pyRoundInt_zero]

/-- C3: For every content whose whitespace-split word count is 0 (e.g.,
the empty string), no operation raises a failure and every ratio is
guarded: analyzeSeo yields density 0 for every keyword, and
analyzeReadability yields readingEase = 0, gradeLevel = 0, and
avgSentenceLength = 0 — no division by zero occurs in any core
operation on any input (all the embedded operations are total Lean
functions), including empty strings and empty keyword lists. -/
theorem claim_C3_zero_words_guarded (content : List Char) (keywords : List (List Char))
    (h : splitWS content = []) :
    (∀ kd ∈ (analyze_seo content keywords).keyword_density, kd.2 = 0) ∧
      (analyze_readability content).reading_ease = 0 ∧
      (analyze_readability content).flesch_kincaid_grade = 0 ∧
      (analyze_readability content).avg_sentence_length = 0 := by
  have hall : ∀ c ∈ content, pyIsSpace c = true := (splitWS_eq_nil_iff content).mp h
  have hclean : splitWS (collapseNL (content.filter fun c =>
      ¬ (c = '#' ∨ c = '*' ∨ c = backquote ∨ c = '[' ∨ c = ']'))) = [] := by
    apply (splitWS_eq_nil_iff _).mpr
    intro c hc
    exact collapseNLGo_space (fun d hd => hall d (List.mem_of_mem_filter hd)) false c hc
  refine ⟨?_, ?_, ?_, ?_⟩
  · intro kd hkd
    unfold analyze_seo at hkd
    dsimp only at hkd
    simp only [h, List.length_nil, lt_irrefl, if_false, List.map_map, List.mem_map] at hkd
    obtain ⟨k, -, rfl⟩ := hkd
    exact pyRound2_zero
  · unfold analyze_readability
    dsimp only
    rw [hclean]
    simp [pyRound1_zero]
  · unfold analyze_readability
    dsimp only
    rw [hclean]
    simp [pyRound1_zero]
  · unfold analyze_readability
    dsimp only
    rw [hclean]
    simp [pyRound1_zero]

/-- Witness for C3 at the concrete input `content = ""`,
`keywords = ["blog"]`. -/
theorem claim_C3_zero_words_guarded_witness :
    splitWS "".toList = [] ∧
      ((∀ kd ∈ (analyze_seo "".toList ["blog".toList]).keyword_density, kd.2 = 0) ∧
        (analyze_readability "".toList).reading_ease = 0 ∧
        (analyze_readability "".toList).flesch_kincaid_grade = 0 ∧
        (analyze_readability "".toList).avg_sentence_length = 0) :=
  ⟨rfl, claim_C3_zero_words_guarded "".toList ["blog".toList] rfl⟩

/-- C2: For every content, headline, and keyword list, analyzeFull's
overallScore equals the weighted sum headline.score×0.2 + seo.score×0.3
+ structure.score×0.2 + (100 − readability.complexityScore)×0.3,
rounded to the nearest integer (within 1/2 of the raw sum), and is an
integer in [0,100]. -/
theorem claim_C2_overall_score (content headline : List Char) (keywords : List (List Char)) :
    (analyze_full content headline keywords).overall_score =
        pyRound0 (((analyze_headline headline).score : ℚ) * 0.2 +
          ((analyze_seo content keywords).score : ℚ) * 0.3 +
          ((analyze_structure content).score : ℚ) * 0.2 +
          (100 - (analyze_readability content).complexity_score) * 0.3) ∧
      |(analyze_full content headline keywords).overall_score -
          (((analyze_headline headline).score : ℚ) * 0.2 +
            ((analyze_seo content keywords).score : ℚ) * 0.3 +
            ((analyze_structure content).score : ℚ) * 0.2 +
            (100 - (analyze_readability content).complexity_score) * 0.3)| ≤ 1 / 2 ∧
      (∃ n : ℤ, (analyze_full content headline keywords).overall_score = (n : ℚ)) ∧
      0 ≤ (analyze_full content headline keywords).overall_score ∧
      (analyze_full content headline keywords).overall_score ≤ 100 := by
  have h1 := analyze_headline_score_bounds headline
  have h2 := analyze_seo_score_bounds content keywords
  have h3 := analyze_structure_score_bounds content
  have h4 := analyze_readability_complexity_bounds content
  have h1a : (10 : ℚ) ≤ ((analyze_headline headline).score : ℚ) := by exact_mod_cast h1.1
  have h1b : ((analyze_headline headline).score : ℚ) ≤ 100 := by exact_mod_cast h1.2
  have h2a : (0 : ℚ) ≤ ((analyze_seo content keywords).score : ℚ) := by exact_mod_cast h2.1
  have h2b : ((analyze_seo content keywords).score : ℚ) ≤ 100 := by exact_mod_cast h2.2
  have h3a : (0 : ℚ) ≤ ((analyze_structure content).score : ℚ) := by exact_mod_cast h3.1
  have h3b : ((analyze_structure content).score : ℚ) ≤ 100 := by exact_mod_cast h3.2
  set S : ℚ := ((analyze_headline headline).score : ℚ) * 0.2 +
      ((analyze_seo content keywords).score : ℚ) * 0.3 +
      ((analyze_structure content).score : ℚ) * 0.2 +
      (100 - (analyze_readability content).complexity_score) * 0.3 with hS
  have e : (analyze_full content headline keywords).overall_score = pyRound0 S := rfl
  have hS0 : 0 ≤ S := by
    rw [hS]
    linarith [h4.1, h4.2]
  have hS100 : S ≤ 100 := by
    rw [hS]
    linarith [h4.1, h4.2]
  refine ⟨e, ?_, ⟨pyRoundInt S, ?_⟩, ?_, ?_⟩
  · rw [e]
    exact abs_pyRoundInt_sub_le S
  · rw [e]
    rfl
  · rw [e]
    exact pyRound0_nonneg hS0
  · rw [e]
    have h := @pyRound0_le S (100 : ℤ) (by push_cast; linarith)
    exact_mod_cast h

/-- The per-category persuasive-word scoring that the specification
sentence describes (claim C1): for each category of the
LexicalResource, the number of whole-word case-insensitive matches of
that category's words is multiplied by 15 and capped at 40 for that
category, and the category contributions are summed.  This definition
follows the spec's words, for comparison with `analyze_headline`. -/
def specPerCategoryPowerScore (headline : List Char) : ℤ :=
  let hl := headline.map Char.toLower
  (power_words_db.map fun cw =>
    min (((cw.2.filter fun w => searchWholeWord w hl).length : ℤ) * 15) 40).sum

/-- The headline score as claim C1 reads it: the length tier, digit and
question bonuses as in the code, but with the power-word component
computed per category (`specPerCategoryPowerScore`), and only the total
capped at 100. -/
def specHeadlineScorePerCategory (headline : List Char) : ℤ :=
  let char_count := headline.length
  let length_score : ℤ :=
    if 50 ≤ char_count ∧ char_count ≤ 60 then 30
    else if 40 ≤ char_count ∧ char_count ≤ 70 then 20
    else 10
  let number_score : ℤ := if headline.any Char.isDigit then 15 else 0
  let question_score : ℤ := if headline.contains '?' then 10 else 0
  min (length_score + specPerCategoryPowerScore headline + number_score + question_score) 100

/-- C1 (counterexample): the claim says each category contributes
min(matches×15, 40) separately, so a 60-character headline matching 3
words in each of the 3 categories would score min(30 + 40×3, 100) =
100.  The code instead caps the pooled count once:
min(30 + min(9×15, 40), 100) = 70.  The two disagree on this input, so
the claim as stated is false of the code. -/
theorem claim_C1_counterexample :
    (analyze_headline
        "now today fast best proven ultimate secret discover revealed".toList).score = 70 ∧
      specHeadlineScorePerCategory
        "now today fast best proven ultimate secret discover revealed".toList = 100 ∧
      (analyze_headline
          "now today fast best proven ultimate secret discover revealed".toList).score ≠
        specHeadlineScorePerCategory
          "now today fast best proven ultimate secret discover revealed".toList := by
  refine ⟨by decide, by decide, by decide⟩

theorem length_flatMap_eq {α β : Type} (l : List α) (f : α → List β) :
    (l.flatMap f).length = (l.map fun a => (f a).length).sum := by
  induction l with
  | nil => simp
  | cons a rest ih => simp [ih]

/-- C1 (amended): in analyzeHeadline the persuasive-word contribution
is computed globally, not per category: the words found across all
categories are pooled, and the single contribution min(totalMatches×15,
40) is added to the score; the 100 cap applies to the total score.
Thus a headline matching 3 words in each of 3 categories contributes 40
power-word points in total, not 40 per category. -/
theorem claim_C1_amended (headline : List Char) :
    (analyze_headline headline).score =
      min ((if 50 ≤ headline.length ∧ headline.length ≤ 60 then (30 : ℤ)
          else if 40 ≤ headline.length ∧ headline.length ≤ 70 then 20
          else 10) +
        min ((((power_words_db.map fun cw =>
            (cw.2.filter fun w =>
              searchWholeWord w (headline.map Char.toLower)).length).sum : ℕ) : ℤ) * 15) 40 +
        (if headline.any Char.isDigit then 15 else 0) +
        (if headline.contains '?' then 10 else 0)) 100 := by
  unfold analyze_headline
  dsimp only
  rw [length_flatMap_eq]

/-!
## Positional characterisation of the heading counts (claim C4)
-/

/-- Count of positions at the start of a line where predicate `p` holds
of the remaining text.  `flag` says whether the current position starts
a line (the previous character was a newline, or there is none). -/
def lineStartCountAux (p : List Char → Bool) : Bool → List Char → Nat
  | _, [] => 0
  | flag, c :: rest =>
    (if flag && p (c :: rest) then 1 else 0) + lineStartCountAux p (c = '\n') rest

/-- Count of line-start positions of `l` satisfying `p` (the start of
the text is a line start). -/
def lineStartCount (p : List Char → Bool) (l : List Char) : Nat :=
  lineStartCountAux p true l

/-- The claim's reading of an `Hk` heading marker: exactly `k` hash
characters (the next character is not a hash) followed by a whitespace
character. -/
def specHeadingAt (k : Nat) (l : List Char) : Bool :=
  (List.replicate k '#').isPrefixOf l &&
    (match l.get? k with
     | some c => decide (c ≠ '#') && pyIsSpace c
     | none => false)

/-- The line-start flag `lineStartCountAux` carries after walking
`mid`. -/
def flagAfter (flag : Bool) (mid : List Char) : Bool :=
  match mid.getLast? with
  | none => flag
  | some c => c = '\n'

theorem pyIsSpace_ne_hash {c : Char} (h : pyIsSpace c = true) : c ≠ '#' := by
  intro hc
  subst hc
  exact absurd h (by decide)

theorem wsRun_le_length (l : List Char) : wsRun l ≤ l.length := by
  induction l with
  | nil => simp [wsRun]
  | cons c rest ih =>
    rw [wsRun]
    split_ifs <;> (simp only [List.length_cons]; omega)

theorem take_wsRun_space (l : List Char) : ∀ c ∈ l.take (wsRun l), pyIsSpace c = true := by
  induction l with
  | nil => simp
  | cons c rest ih =>
    rw [wsRun]
    split_ifs with hc
    · intro d hd
      rw [List.take_succ_cons] at hd
      rcases List.mem_cons.mp hd with rfl | hd2
      · exact hc
      · exact ih d hd2
    · simp

theorem wsRun_pos_iff (l : List Char) :
    1 ≤ wsRun l ↔ ∃ c, l.head? = some c ∧ pyIsSpace c = true := by
  cases l with
  | nil => simp [wsRun]
  | cons c rest =>
    rw [wsRun]
    split_ifs with hc
    · simp only [List.head?_cons]
      constructor
      · intro _
        exact ⟨c, rfl, hc⟩
      · intro _
        omega
    · simp only [List.head?_cons]
      constructor
      · intro h
        omega
      · rintro ⟨d, hd, hds⟩
        cases hd
        exact absurd hds hc

theorem specHeadingAt_iff (k : Nat) (l : List Char) :
    specHeadingAt k l = true ↔
      ((List.replicate k '#').isPrefixOf l = true ∧ 1 ≤ wsRun (l.drop k)) := by
  unfold specHeadingAt
  rw [Bool.and_eq_true]
  constructor
  · rintro ⟨h1, h2⟩
    refine ⟨h1, ?_⟩
    cases hg : l.get? k with
    | none =>
      rw [hg] at h2
      exact absurd h2 (by simp)
    | some c =>
      rw [hg] at h2
      rw [Bool.and_eq_true] at h2
      have hc : pyIsSpace c = true := h2.2
      rw [wsRun_pos_iff]
      refine ⟨c, ?_, hc⟩
      rw [List.head?_drop]
      rw [List.get?_eq_getElem?] at hg
      exact hg
  · rintro ⟨h1, h2⟩
    refine ⟨h1, ?_⟩
    obtain ⟨c, hc1, hc2⟩ := (wsRun_pos_iff _).mp h2
    have hg : l.get? k = some c := by
      rw [List.get?_eq_getElem?, ← List.head?_drop]
      exact hc1
    rw [hg]
    simp [hc2, pyIsSpace_ne_hash hc2]

theorem hashMatcher_eq_some_iff (k : Nat) (prev : Option Char) (l : List Char) (m : Nat) :
    hashMatcher k prev l = some m ↔
      (atLineStart prev = true ∧ specHeadingAt k l = true ∧ m = k + wsRun (l.drop k)) := by
  unfold hashMatcher
  dsimp only
  split_ifs with h1 h2
  · simp only [Option.some_inj]
    constructor
    · intro hm
      exact ⟨h1.1, (specHeadingAt_iff k l).mpr ⟨h1.2, h2⟩, hm.symm⟩
    · rintro ⟨-, -, hm⟩
      exact hm.symm
  · simp only [false_iff, reduceCtorEq]
    rintro ⟨-, hs, -⟩
    exact absurd ((specHeadingAt_iff k l).mp hs).2 h2
  · simp only [false_iff, reduceCtorEq]
    rintro ⟨ha, hs, -⟩
    exact h1 ⟨ha, ((specHeadingAt_iff k l).mp hs).1⟩

theorem hashMatcher_eq_none_iff (k : Nat) (prev : Option Char) (l : List Char) :
    hashMatcher k prev l = none ↔
      ¬ (atLineStart prev = true ∧ specHeadingAt k l = true) := by
  unfold hashMatcher
  dsimp only
  split_ifs with h1 h2
  · simp only [reduceCtorEq, false_iff, not_not]
    exact ⟨h1.1, (specHeadingAt_iff k l).mpr ⟨h1.2, h2⟩⟩
  · simp only [true_iff]
    rintro ⟨-, hs⟩
    exact absurd ((specHeadingAt_iff k l).mp hs).2 h2
  · simp only [true_iff]
    rintro ⟨ha, hs⟩
    exact h1 ⟨ha, ((specHeadingAt_iff k l).mp hs).1⟩

theorem flagAfter_cons (flag : Bool) (a : Char) (mid : List Char) :
    flagAfter flag (a :: mid) = flagAfter (a = '\n') mid := by
  cases mid with
  | nil => simp [flagAfter]
  | cons b t =>
    unfold flagAfter
    rw [List.getLast?_cons_cons]
    cases hg : (b :: t).getLast? with
    | none =>
      rw [List.getLast?_eq_none_iff] at hg
      exact absurd hg (by simp)
    | some c => rfl

theorem lineStartCountAux_no_hit (p : List Char → Bool) (tail : List Char) :
    ∀ (mid : List Char) (flag : Bool),
      (∀ i, i < mid.length → p (mid.drop i ++ tail) = false) →
      lineStartCountAux p flag (mid ++ tail) =
        lineStartCountAux p (flagAfter flag mid) tail := by
  intro mid
  induction mid with
  | nil =>
    intro flag h
    simp [flagAfter]
  | cons a mid2 ih =>
    intro flag h
    have h0 : p (a :: (mid2 ++ tail)) = false := by
      have := h 0 (by simp)
      simpa using this
    have hrest : ∀ i, i < mid2.length → p (mid2.drop i ++ tail) = false := by
      intro i hi
      have := h (i + 1) (by simp; omega)
      simpa using this
    calc lineStartCountAux p flag ((a :: mid2) ++ tail)
        = lineStartCountAux p (a = '\n') (mid2 ++ tail) := by
          rw [List.cons_append, lineStartCountAux, h0]
          simp
      _ = lineStartCountAux p (flagAfter (a = '\n') mid2) tail := ih (a = '\n') hrest
      _ = lineStartCountAux p (flagAfter flag (a :: mid2)) tail := by
          rw [flagAfter_cons]

theorem get?_eq_hash_of_front_hashes {k : Nat} {s : List Char}
    (h : (List.replicate k '#').isPrefixOf s = true) :
    ∀ j, j < k → s.get? j = some '#' := by
  intro j hj
  rw [ List.isPrefixOf_iff_prefix, List.prefix_iff_eq_take] at h
  have hk : s.take k = List.replicate k '#' := by
    simpa using h.symm
  have h2 : (s.take k).get? j = some '#' := by
    rw [hk]
    simp [List.getElem?_replicate, hj]
  rw [List.get?_eq_getElem?] at h2 ⊢
  rw [← List.getElem?_take_of_lt hj]
  exact h2

theorem specHeadingAt_false_of_head {k : Nat} (hk : 1 ≤ k) {c : Char} {rest : List Char}
    (hc : c ≠ '#') : specHeadingAt k (c :: rest) = false := by
  unfold specHeadingAt
  have hpre : (List.replicate k '#').isPrefixOf (c :: rest) = false := by
    rw [Bool.eq_false_iff]
    intro habs
    have := get?_eq_hash_of_front_hashes habs 0 (by omega)
    simp at this
    exact hc this
  rw [hpre, Bool.false_and]

/-- Inside the consumed region of a heading match (the trailing `k-1`
hashes and the whitespace run), no suffix position satisfies the
heading predicate. -/
theorem specHeading_false_inside (k : Nat) (hk : 1 ≤ k) (ws tail : List Char)
    (hws : ∀ c ∈ ws, pyIsSpace c = true) (hne : ws ≠ []) :
    ∀ i, i < (List.replicate (k - 1) '#' ++ ws).length →
      specHeadingAt k ((List.replicate (k - 1) '#' ++ ws).drop i ++ tail) = false := by
  intro i hi
  obtain ⟨w, ws2, rfl⟩ : ∃ w ws2, ws = w :: ws2 := by
    cases ws with
    | nil => exact absurd rfl hne
    | cons w ws2 => exact ⟨w, ws2, rfl⟩
  have hw : pyIsSpace w = true := hws w (List.mem_cons_self w ws2)
  by_cases hcase : i < k - 1
  · rw [Bool.eq_false_iff]
    intro hs
    rw [specHeadingAt_iff] at hs
    have hhash := get?_eq_hash_of_front_hashes hs.1 (k - 1 - i) (by omega)
    have hdrop : (List.replicate (k - 1) '#' ++ w :: ws2).drop i =
        List.replicate (k - 1 - i) '#' ++ w :: ws2 := by
      rw [List.drop_append_of_le_length (by simp; omega), List.drop_replicate]
    have hget : ((List.replicate (k - 1) '#' ++ w :: ws2).drop i ++ tail).get? (k - 1 - i) =
        some w := by
      rw [hdrop, List.append_assoc, List.get?_eq_getElem?,
        List.getElem?_append_right (by simp)]
      simp
    rw [hget] at hhash
    exact pyIsSpace_ne_hash hw (Option.some_inj.mp hhash)
  · have hlen : i - (k - 1) < (w :: ws2).length := by
      simp only [List.length_append, List.length_replicate, List.length_cons] at hi ⊢
      omega
    have hdrop : (List.replicate (k - 1) '#' ++ w :: ws2).drop i =
        (w :: ws2).drop (i - (k - 1)) := by
      have hd2 := @List.drop_append Char (List.replicate (k - 1) '#') (w :: ws2) (i - (k - 1))
      rw [List.length_replicate] at hd2
      have hidx : k - 1 + (i - (k - 1)) = i := by omega
      rw [hidx] at hd2
      exact hd2
    obtain ⟨c, rest2, hc⟩ : ∃ c rest2, (w :: ws2).drop (i - (k - 1)) = c :: rest2 := by
      cases hd : (w :: ws2).drop (i - (k - 1)) with
      | nil =>
        rw [List.drop_eq_nil_iff] at hd
        omega
      | cons c rest2 => exact ⟨c, rest2, rfl⟩
    have hcs : pyIsSpace c = true := by
      apply hws
      apply List.mem_of_mem_drop
      rw [hc]
      exact List.mem_cons_self c rest2
    rw [hdrop, hc, List.cons_append]
    exact specHeadingAt_false_of_head hk (pyIsSpace_ne_hash hcs)

/-- `re.findall(r'^#..#\s+', content, re.MULTILINE)` counts exactly the
line-start positions carrying the heading marker: the scanner's
non-overlapping skip never jumps over another marker, because the
consumed segment (hashes plus whitespace run) contains no further
marker start. -/
theorem findallGo_hashMatcher_eq (k : Nat) (hk : 1 ≤ k) :
    ∀ (fuel : Nat) (prev : Option Char) (l : List Char), l.length ≤ fuel →
      findallGo (hashMatcher k) fuel prev l =
        lineStartCountAux (specHeadingAt k) (atLineStart prev) l := by
  intro fuel
  induction fuel with
  | zero =>
    intro prev l hl
    have hnil : l = [] := by
      cases l with
      | nil => rfl
      | cons c rest => simp at hl
    subst hnil
    rfl
  | succ fuel ih =>
    intro prev l hl
    cases l with
    | nil => rfl
    | cons c rest =>
      rw [findallGo]
      cases hm : hashMatcher k prev (c :: rest) with
      | none =>
        have hcond : (atLineStart prev && specHeadingAt k (c :: rest)) = false := by
          have hn := (hashMatcher_eq_none_iff k prev (c :: rest)).mp hm
          cases ha : atLineStart prev
          · simp
          · cases hb : specHeadingAt k (c :: rest)
            · simp
            · exact absurd ⟨ha, hb⟩ hn
        rw [lineStartCountAux, hcond]
        simp only [Bool.false_eq_true, if_false, Nat.zero_add]
        have := ih (some c) rest (by simpa using hl)
        simpa [atLineStart] using this
      | some m =>
        obtain ⟨ha, hs, hmv⟩ := (hashMatcher_eq_some_iff k prev (c :: rest) m).mp hm
        have hpre := ((specHeadingAt_iff k (c :: rest)).mp hs).1
        have hr1 := ((specHeadingAt_iff k (c :: rest)).mp hs).2
        have hm0 : ¬ m = 0 := by omega
        dsimp only
        rw [if_neg hm0]
        rw [lineStartCountAux, ha, hs]
        simp only [Bool.and_self, if_true]
        congr 1
        -- decompose the text around the matched segment
        have hp2 : List.replicate k '#' <+: (c :: rest) := List.isPrefixOf_iff_prefix.mp hpre
        have hsplit : List.replicate k '#' ++ (c :: rest).drop k = c :: rest := by
          have := List.prefix_iff_eq_append.mp hp2
          simpa using this
        have hc : c = '#' := by
          have := get?_eq_hash_of_front_hashes hpre 0 (by omega)
          simpa using this
        have hrest : rest = List.replicate (k - 1) '#' ++ (c :: rest).drop k := by
          obtain ⟨k2, rfl⟩ : ∃ k2, k = k2 + 1 := ⟨k - 1, by omega⟩
          rw [List.replicate_succ] at hsplit
          simp only [List.cons_append, List.cons.injEq] at hsplit
          simpa using hsplit.2.symm
        set r := wsRun ((c :: rest).drop k) with hrdef
        set ws := ((c :: rest).drop k).take r with hwsdef
        set tl := (c :: rest).drop (k + r) with htldef
        have hdk : (c :: rest).drop k = ws ++ tl := by
          rw [hwsdef, htldef]
          rw [← List.drop_drop]
          exact (List.take_append_drop r ((c :: rest).drop k)).symm
        have hws_all : ∀ x ∈ ws, pyIsSpace x = true := by
          intro x hx
          exact take_wsRun_space ((c :: rest).drop k) x hx
        have hws_len : ws.length = r := by
          rw [hwsdef, List.length_take]
          have := wsRun_le_length ((c :: rest).drop k)
          omega
        have hws_ne : ws ≠ [] := by
          intro h0
          rw [h0] at hws_len
          simp at hws_len
          omega
        have hrest2 : rest = (List.replicate (k - 1) '#' ++ ws) ++ tl := by
          rw [List.append_assoc, ← hdk]
          exact hrest
        -- the last character of the consumed segment
        obtain ⟨wl, hwl⟩ : ∃ wl, ws.getLast? = some wl := by
          cases hgl : ws.getLast? with
          | none =>
            rw [List.getLast?_eq_none_iff] at hgl
            exact absurd hgl hws_ne
          | some wl => exact ⟨wl, rfl⟩
        have hflag : flagAfter (decide (c = '\n')) (List.replicate (k - 1) '#' ++ ws) =
            decide (wl = '\n') := by
          unfold flagAfter
          rw [List.getLast?_append, hwl]
          rfl
        have hget : (c :: rest).get? (m - 1) = some wl := by
          have hl2 : c :: rest = List.replicate k '#' ++ (ws ++ tl) := by
            rw [← hdk]
            exact hsplit.symm
          rw [List.get?_eq_getElem?, hl2]
          rw [List.getElem?_append_right (by simp; omega)]
          rw [List.getElem?_append_left (by simp [hws_len]; omega)]
          have : m - 1 - (List.replicate k '#').length = r - 1 := by
            simp
            omega
          rw [this]
          have := List.getLast?_eq_getElem? ws
          rw [hwl, hws_len] at this
          exact this.symm
        calc findallGo (hashMatcher k) fuel ((c :: rest).get? (m - 1)) ((c :: rest).drop m)
            = lineStartCountAux (specHeadingAt k)
                (atLineStart ((c :: rest).get? (m - 1))) ((c :: rest).drop m) := by
              apply ih
              simp only [List.length_drop, List.length_cons] at hl ⊢
              omega
          _ = lineStartCountAux (specHeadingAt k) (decide (wl = '\n')) tl := by
              rw [hget, htldef, hmv]
              rfl
          _ = lineStartCountAux (specHeadingAt k)
                (flagAfter (decide (c = '\n')) (List.replicate (k - 1) '#' ++ ws)) tl := by
              rw [hflag]
          _ = lineStartCountAux (specHeadingAt k) (decide (c = '\n')) rest := by
              rw [hrest2]
              exact (lineStartCountAux_no_hit (specHeadingAt k) tl
                (List.replicate (k - 1) '#' ++ ws) (decide (c = '\n'))
                (specHeading_false_inside k hk ws tl hws_all hws_ne)).symm

theorem specHeadingAt_disjoint_lt {j k : ℕ} (h : j < k) (l : List Char)
    (hj : specHeadingAt j l = true) (hk : specHeadingAt k l = true) : False := by
  have hhash := get?_eq_hash_of_front_hashes ((specHeadingAt_iff k l).mp hk).1 j h
  unfold specHeadingAt at hj
  rw [Bool.and_eq_true] at hj
  have h2 := hj.2
  rw [hhash] at h2
  simp at h2

theorem specHeadingAt_and_false {j k : ℕ} (h : j < k) (l : List Char) :
    (specHeadingAt j l && specHeadingAt k l) = false := by
  cases hj : specHeadingAt j l with
  | false => simp
  | true =>
    cases hk : specHeadingAt k l with
    | false => simp
    | true => exact absurd (specHeadingAt_disjoint_lt h l hj hk) (by simp)

/-- C4: analyzeStructure counts H1/H2/H3 by line-start markers
consisting of exactly one, two, or three hash characters followed by
whitespace: each hᵢCount equals the number of line-start positions
carrying exactly that marker, and the three marker predicates are
mutually exclusive — a line beginning "## " increments h2Count only and
never h1Count, a line beginning "### " increments h3Count only, and
lines whose hashes are not followed by whitespace, or with four or more
hashes, are counted as none of the three. -/
theorem claim_C4_heading_counts (content : List Char) :
    (analyze_structure content).h1_count = lineStartCount (specHeadingAt 1) content ∧
      (analyze_structure content).h2_count = lineStartCount (specHeadingAt 2) content ∧
      (analyze_structure content).h3_count = lineStartCount (specHeadingAt 3) content ∧
      ∀ l : List Char,
        (specHeadingAt 1 l && specHeadingAt 2 l) = false ∧
        (specHeadingAt 1 l && specHeadingAt 3 l) = false ∧
        (specHeadingAt 2 l && specHeadingAt 3 l) = false := by
  refine ⟨?_, ?_, ?_, ?_⟩
  · have e : (analyze_structure content).h1_count = findallCount (hashMatcher 1) content := rfl
    rw [e]
    unfold findallCount lineStartCount
    simpa [atLineStart] using
      findallGo_hashMatcher_eq 1 (by omega) content.length none content (le_refl _)
  · have e : (analyze_structure content).h2_count = findallCount (hashMatcher 2) content := rfl
    rw [e]
    unfold findallCount lineStartCount
    simpa [atLineStart] using
      findallGo_hashMatcher_eq 2 (by omega) content.length none content (le_refl _)
  · have e : (analyze_structure content).h3_count = findallCount (hashMatcher 3) content := rfl
    rw [e]
    unfold findallCount lineStartCount
    simpa [atLineStart] using
      findallGo_hashMatcher_eq 3 (by omega) content.length none content (le_refl _)
  · intro l
    exact ⟨specHeadingAt_and_false (by omega) l, specHeadingAt_and_false (by omega) l,
      specHeadingAt_and_false (by omega) l⟩
